import Mathlib

/-!
# Verification development for the scheduler agent

A shallow embedding of `src/research/agent_repeater/agent.py`: a persistent,
command-driven scheduler agent with a binary wire protocol, a persisted global
clock, transactional command processing with an idempotency ledger, and
fixed-width big-endian byte-array codecs.

Python bytes are modelled as `List Nat` with elements `< 256`; unsigned 64-bit
integers are `Nat` with explicit `< 256 ^ 8` bounds where they matter; fallible
Python code (raised exceptions) is modelled with `Except` / `Option`; the
store and transaction collaborators are modelled as explicit state passing,
with a failure script (`List Bool`) selecting which store operations raise.
-/

set_option autoImplicit false

namespace Repeater

-- === Configuration and Constants (agent.py lines 9-30) ===

def DEFAULT_CONCURRENCY_LIMIT : Nat := 10

def OT_TASK : Nat := 1

def OT_CLOCK : Nat := 2

def OT_PROCESSED_COMMAND : Nat := 3

def MARKER_UNPROCESSED : Nat := 0

def MARKER_PROCESSED : Nat := 1

def MARKER_ERROR : Nat := 2

def CMD_REPEAT : Nat := 1

def CMD_DESIST : Nat := 2

def ID_TASK_ROOT : Nat := 0

def ID_GLOBAL_CLOCK : Nat := 1

-- === Binary codec (agent.py lines 276-332) ===

/-- Big-endian unsigned value of a byte list: `int.from_bytes(chunk, "big", signed=False)`. -/
def bytesToNatBE (bs : List Nat) : Nat :=
  bs.foldl (fun acc b => acc * 256 + b) 0

/-- Big-endian fixed-width unsigned encoding of `n` in `w` bytes:
`n.to_bytes(w, "big", signed=False)`, meaningful when `n < 256 ^ w`. -/
def natToBytesBE : Nat → Nat → List Nat
  | _, 0 => []
  | n, w + 1 => natToBytesBE (n / 256) w ++ [n % 256]

/-- Chunk decoding with structural fuel so the kernel can evaluate it. -/
def decodeBEAux (fuel : Nat) (w : Nat) (data : List Nat) : List Nat :=
  match fuel with
  | 0 => []
  | fuel + 1 =>
    if w = 0 ∨ data.length = 0 then []
    else bytesToNatBE (data.take w) :: decodeBEAux fuel w (data.drop w)

/-- The chunk-decoding loop of `bytes_to_int_array` (agent.py lines 297-302):
split `data` into `w`-byte chunks, decode each big-endian. -/
def decodeBE (w : Nat) (data : List Nat) : List Nat :=
  decodeBEAux (data.length + 1) w data

/-- `bytes_to_int_array` (agent.py lines 276-303) with the arguments the agent uses
(big-endian, unsigned). `byte_width` is a natural here, so the Python guard
`byte_width <= 0` becomes `byte_width = 0`. -/
def bytes_to_int_array (data : List Nat) (byte_width : Nat) : Except String (List Nat) :=
  if byte_width = 0 then
    Except.error "byte_width must be a positive integer."
  else if data.length % byte_width ≠ 0 then
    Except.error "Data length is not a multiple of byte width."
  else
    Except.ok (decodeBE byte_width data)

/-- The encoding loop of `int_array_to_bytes` (agent.py lines 323-331): each
number out of unsigned range for `byte_width` bytes raises (`OverflowError`
re-raised as `ValueError`), checked in list order. -/
def intArrayGo (byte_width : Nat) : List Nat → Except String (List Nat)
  | [] => Except.ok []
  | n :: rest =>
    if n < 256 ^ byte_width then
      match intArrayGo byte_width rest with
      | Except.ok bs => Except.ok (natToBytesBE n byte_width ++ bs)
      | Except.error e => Except.error e
    else
      Except.error "Number cannot be represented in byte_width bytes."

/-- `int_array_to_bytes` (agent.py lines 306-332) with the arguments the agent uses
(big-endian, unsigned). -/
def int_array_to_bytes (numbers : List Nat) (byte_width : Nat) : Except String (List Nat) :=
  if byte_width = 0 then
    Except.error "byte_width must be a positive integer."
  else
    intArrayGo byte_width numbers

/-- Pure concatenation of big-endian encodings, the value computed by
`int_array_to_bytes` when every number is in range. -/
def encodeIntsBE (w : Nat) : List Nat → List Nat
  | [] => []
  | n :: rest => natToBytesBE n w ++ encodeIntsBE w rest

-- === Store, blocks and transactions (agent.py lines 190-268) ===

/-- The slice of the host object/association store this agent touches.
Tasks map an id to their 40 raw bytes; `nextTaskId` is the id the store
assigns to the next task created with id 0 (agent.py line 261 relies on the
store assigning ids); `assocs` are `scheduled_task` edges `(src, target)`;
`markers` is the ProcessedCommandMarker ledger, one `(command_id,
processed_at)` entry per marker object. -/
structure StoreState where
  tasks : List (Nat × List Nat)
  nextTaskId : Nat
  assocs : List (Nat × Nat)
  markers : List (String × Nat)
deriving DecidableEq

/-- A command block from the host: `.id`, `.data` and its state marker
(agent.py line 62). An absent id is modelled as the empty string, matching
Python falsiness of `block.id` at line 208. -/
structure Block where
  id : String
  data : List Nat
  marker : Nat
deriving DecidableEq

/-- An effect buffered inside a read-write transaction until `commit()`
(spec §6: effects are buffered until commit). -/
inductive Effect where
  | putTask (data : List Nat)
  | putMarker (id : String) (processedAt : Nat)
  | createAssoc (src : Nat) (tar : Nat)
  | deleteTask (id : Nat)
deriving DecidableEq

/-- A failure script for the store collaborator: each transactional store
operation consumes one entry and raises when it is `false`; an exhausted
script means no further failures. -/
def FailScript : Type := List Bool

/-- Pop the next outcome from a failure script. -/
def scriptNext (sc : FailScript) : Bool × FailScript :=
  match sc with
  | [] => (true, [])
  | b :: rest => (b, rest)

/-- `object_exists(OT_PROCESSED_COMMAND, command_id)` (agent.py line 214). -/
def markerExists (s : StoreState) (id : String) : Bool :=
  s.markers.any (fun m => m.1 == id)

/-- Apply one committed effect to the store. `deleteTask` also removes the
scheduling edges of the task: the spec (§3, §4.5) delegates this cascade to
the referential-integrity guarantee of the store. -/
def applyEffect (s : StoreState) (e : Effect) : StoreState :=
  match e with
  | Effect.putTask data =>
      { s with tasks := s.tasks ++ [(s.nextTaskId, data)], nextTaskId := s.nextTaskId + 1 }
  | Effect.putMarker id processedAt =>
      { s with markers := s.markers ++ [(id, processedAt)] }
  | Effect.createAssoc src tar =>
      { s with assocs := s.assocs ++ [(src, tar)] }
  | Effect.deleteTask id =>
      { s with tasks := s.tasks.filter (fun p => p.1 ≠ id),
               assocs := s.assocs.filter (fun p => p.2 ≠ id) }

/-- Commit a buffered effect list against the store. -/
def applyEffects (s : StoreState) (effs : List Effect) : StoreState :=
  effs.foldl applyEffect s

/-- `_execute_command` with `_handle_repeat` / `_handle_desist`
(agent.py lines 246-268), producing the buffered transaction effects.
An empty integer list makes `command_ints[0]` raise (`IndexError`), as does
`command_ints[1]` in DESIST; REPEAT slices `command_ints[1:]` which never
raises. `tx.put_object` / `tx.create_assoc` / `tx.delete_object` each
consume one failure-script entry. The task id returned by the buffered
`tx.put_object(OT_TASK, 0, ...)` is the next id the store assigns. -/
def runHandler (s : StoreState) (commandInts : List Nat) (sc : FailScript) :
    Except String (List Effect × FailScript) :=
  match commandInts with
  | [] => Except.error "list index out of range"
  | action :: rest =>
    if action = CMD_REPEAT then
      match int_array_to_bytes rest 8 with
      | Except.error e => Except.error e
      | Except.ok taskBytes =>
        if (scriptNext sc).1 then
          if (scriptNext (scriptNext sc).2).1 then
            Except.ok ([Effect.putTask taskBytes, Effect.createAssoc ID_TASK_ROOT s.nextTaskId],
              (scriptNext (scriptNext sc).2).2)
          else
            Except.error "store error in create_assoc"
        else
          Except.error "store error in put_object"
    else if action = CMD_DESIST then
      match rest with
      | [] => Except.error "list index out of range"
      | taskId :: _ =>
        if (scriptNext sc).1 then
          Except.ok ([Effect.deleteTask taskId], (scriptNext sc).2)
        else
          Except.error "store error in delete_object"
    else
      Except.error "Unknown command action code"

/-- The transactional body of `_process_command_block` (agent.py lines
219-237): decode the 48-byte payload as 8-byte unsigned integers, dispatch
the handler, buffer the ProcessedCommandMarker write and the PROCESSED block
mark, then commit. The marker put, the block mark and the commit each
consume one failure-script entry. Returns the committed effect list, or the
raised error. -/
def runCommandTx (s : StoreState) (blockData : List Nat) (id : String) (now : Nat)
    (sc : FailScript) : Except String (List Effect) :=
  match bytes_to_int_array blockData 8 with
  | Except.error e => Except.error e
  | Except.ok commandInts =>
    match runHandler s commandInts sc with
    | Except.error e => Except.error e
    | Except.ok (effs, sc1) =>
      if (scriptNext sc1).1 then
        if (scriptNext (scriptNext sc1).2).1 then
          if (scriptNext (scriptNext (scriptNext sc1).2).2).1 then
            Except.ok (effs ++ [Effect.putMarker id now])
          else
            Except.error "store error in commit"
        else
          Except.error "store error in mark"
      else
        Except.error "store error in put_object marker"

/-- `_process_command_block` (agent.py lines 205-244). A block with no id is
marked ERROR outside any transaction; an already-processed id is only
re-marked PROCESSED; otherwise the transaction runs and on success its
effects are committed and the block is marked PROCESSED (the `tx.mark` at
line 235), while any raised error rolls everything back and leaves both the
store and the block untouched. `now` is the wall-clock timestamp read at
line 227. Returns the store and the block after the call. -/
def processBlock (s : StoreState) (b : Block) (now : Nat) (sc : FailScript) :
    StoreState × Block :=
  if b.id = "" then
    (s, { b with marker := MARKER_ERROR })
  else if markerExists s b.id then
    (s, { b with marker := MARKER_PROCESSED })
  else
    match runCommandTx s b.data b.id now sc with
    | Except.ok effs => (applyEffects s effs, { b with marker := MARKER_PROCESSED })
    | Except.error _ => (s, b)

/-- `stream_blocks("commands", markers=[MARKER_UNPROCESSED, MARKER_ERROR])`
(agent.py lines 195-197): the dispatcher only ever receives blocks whose
state is UNPROCESSED or ERROR. -/
def dispatchCommandBlocks (blocks : List Block) : List Block :=
  blocks.filter (fun b => b.marker = MARKER_UNPROCESSED ∨ b.marker = MARKER_ERROR)

/-- `Except.isOk`, kept local. -/
def exceptOk {α : Type} (r : Except String α) : Bool :=
  match r with
  | Except.ok _ => true
  | Except.error _ => false

-- === Task execution (agent.py lines 159-184) ===

/-- `_process_scheduled_task` (agent.py lines 159-184) given the fetched
task bytes: decode as 8-byte unsigned integers, read fields 0..4 (an
out-of-range index raises and is caught, yielding no message), then — in the
order of the code — compute `current_tick % interval_ticks`; a zero interval makes
Python raise `ZeroDivisionError`, caught by the `except` of the worker, so no
message is sent. Returns the `push_message(owner, channel, payload)` call
made, if any. -/
def processScheduledTask (taskData : List Nat) (tick : Nat) :
    Option (Nat × Nat × List Nat) :=
  match bytes_to_int_array taskData 8 with
  | Except.error _ => none
  | Except.ok ints =>
    match ints with
    | owner :: channel :: payload1 :: payload2 :: intervalTicks :: _ =>
      if intervalTicks = 0 then
        none
      else if tick % intervalTicks = 0 then
        match int_array_to_bytes [payload1, payload2] 8 with
        | Except.ok payload => some (owner, channel, payload)
        | Except.error _ => none
      else
        none
    | _ => none

-- === Clock management (agent.py lines 116-134) and the cycle (94-110) ===

/-- Decimal digit bytes, most significant first, with structural fuel so the
kernel can evaluate it. -/
def natDigitsBEAux (fuel : Nat) (n : Nat) : List Nat :=
  match fuel with
  | 0 => []
  | fuel + 1 =>
    if n < 10 then [48 + n]
    else natDigitsBEAux fuel (n / 10) ++ [48 + n % 10]

/-- Decimal digit bytes of `n`, most significant first: the digits
`json.dumps` writes for an unsigned integer value. -/
def natDigitsBE (n : Nat) : List Nat :=
  natDigitsBEAux (n + 1) n

/-- Value of a big-endian decimal digit-byte list. -/
def digitsVal (ds : List Nat) : Nat :=
  ds.foldl (fun acc d => acc * 10 + (d - 48)) 0

/-- ASCII decimal digit test. -/
def isDigitByte (b : Nat) : Bool :=
  48 ≤ b && b ≤ 57

/-- The eight leading bytes that `json.dumps` produces for the clock object,
the characters left brace, quote, t, i, m, e, quote, colon. -/
def clockHeader : List Nat :=
  [123, 34, 116, 105, 109, 101, 34, 58]

/-- `_serialize_json({"time": n})` (agent.py lines 71-73, 128-129): the
UTF-8 bytes of the compact JSON object with the single key `time`. -/
def serializeClock (n : Nat) : List Nat :=
  clockHeader ++ natDigitsBE n ++ [125]

/-- `_deserialize_json(data)["time"]` (agent.py lines 75-77, 121-122),
restricted to the unsigned-integer records this agent itself writes: `some v`
when `data` is exactly the compact JSON object mapping `time` to the decimal
digits of `v`, `none` when parsing or the key access raises. (JSON records
with a negative or fractional `time`, which this agent never writes, are
outside the model.) -/
def parseClockTime (data : List Nat) : Option Nat :=
  let body := (data.drop 8).dropLast
  if data.take 8 = clockHeader ∧ (data.drop 8).getLast? = some 125 ∧
      body ≠ [] ∧ body.all isDigitByte then
    some (digitsVal body)
  else
    none

/-- The host state `_advance_clock` interacts with: the stored clock record
data (`none` when `get_object` reports the object missing), plus whether the
fetch (`get_object`) or the persist (`put_object`) raises a store error. -/
structure ClockHost where
  clock : Option (List Nat)
  getFails : Bool
  putFails : Bool
deriving DecidableEq

/-- `_advance_clock` (agent.py lines 116-134). The inner `except` catches
every exception of the fetch-and-parse (missing record, fetch error,
undecodable data) and re-initializes the tick to 1 with a fresh record; the
outer `except` turns a persist failure into `None` with the store left
unchanged. Returns the Python return value and the resulting host state. -/
def advanceClock (h : ClockHost) : Option Nat × ClockHost :=
  let newTickCount :=
    if h.getFails then 1
    else
      match h.clock with
      | none => 1
      | some data =>
        match parseClockTime data with
        | some v => v + 1
        | none => 1
  if h.putFails then
    (none, h)
  else
    (some newTickCount, { h with clock := some (serializeClock newTickCount) })

/-- A worker spawned by the cycle: a task execution at a tick, or a command
block processing. -/
inductive Job where
  | task (taskId : Nat) (tick : Nat)
  | command (b : Block)
deriving DecidableEq

/-- The dispatch decisions of `tail` (agent.py lines 94-106): when
`_advance_clock` returns `None` the cycle halts with no jobs; otherwise one
worker per streamed scheduled-task association target and one per streamed
unresolved command block. `taskIds` are the association targets of this shard. -/
def tailJobs (h : ClockHost) (taskIds : List Nat) (blocks : List Block) : List Job :=
  match (advanceClock h).1 with
  | none => []
  | some tick =>
    taskIds.map (fun i => Job.task i tick) ++ (dispatchCommandBlocks blocks).map Job.command

-- === Codec lemmas ===

theorem bytesToNatBE_nil : bytesToNatBE [] = 0 := rfl

theorem bytesToNatBE_concat (bs : List Nat) (b : Nat) :
    bytesToNatBE (bs ++ [b]) = bytesToNatBE bs * 256 + b := by
  simp [bytesToNatBE, List.foldl_append]

theorem length_natToBytesBE (n w : Nat) : (natToBytesBE n w).length = w := by
  induction w generalizing n with
  | zero => rfl
  | succ w ih => simp [natToBytesBE, ih]

theorem mem_natToBytesBE_lt (n w : Nat) : ∀ b ∈ natToBytesBE n w, b < 256 := by
  induction w generalizing n with
  | zero => intro b hb; simp [natToBytesBE] at hb
  | succ w ih =>
    intro b hb
    simp only [natToBytesBE, List.mem_append, List.mem_singleton] at hb
    rcases hb with hb | hb
    · exact ih (n / 256) b hb
    · omega

theorem bytesToNatBE_natToBytesBE (w n : Nat) (h : n < 256 ^ w) :
    bytesToNatBE (natToBytesBE n w) = n := by
  induction w generalizing n with
  | zero =>
    simp only [pow_zero, Nat.lt_one_iff] at h
    simp [natToBytesBE, bytesToNatBE, h]
  | succ w ih =>
    have hdiv : n / 256 < 256 ^ w := by
      rw [Nat.div_lt_iff_lt_mul (by norm_num : 0 < 256)]
      calc n < 256 ^ (w + 1) := h
        _ = 256 ^ w * 256 := by ring
    simp only [natToBytesBE, bytesToNatBE_concat, ih (n / 256) hdiv]
    omega

theorem natToBytesBE_bytesToNatBE (bs : List Nat) (h : ∀ b ∈ bs, b < 256) :
    natToBytesBE (bytesToNatBE bs) bs.length = bs := by
  induction bs using List.reverseRecOn with
  | nil => rfl
  | append_singleton bs b ih =>
    have hb : b < 256 := h b (by simp)
    have hbs : ∀ x ∈ bs, x < 256 := fun x hx => h x (by simp [hx])
    have hlen : (bs ++ [b]).length = bs.length + 1 := by simp
    rw [hlen, bytesToNatBE_concat]
    show natToBytesBE (bytesToNatBE bs * 256 + b) (bs.length + 1) = bs ++ [b]
    have hdiv : (bytesToNatBE bs * 256 + b) / 256 = bytesToNatBE bs := by omega
    have hmod : (bytesToNatBE bs * 256 + b) % 256 = b := by omega
    simp only [natToBytesBE, hdiv, hmod, ih hbs]

theorem bytesToNatBE_lt (bs : List Nat) (h : ∀ b ∈ bs, b < 256) :
    bytesToNatBE bs < 256 ^ bs.length := by
  induction bs using List.reverseRecOn with
  | nil => simp [bytesToNatBE]
  | append_singleton bs b ih =>
    have hb : b < 256 := h b (by simp)
    have hbs : ∀ x ∈ bs, x < 256 := fun x hx => h x (by simp [hx])
    have hv := ih hbs
    rw [bytesToNatBE_concat]
    have hlen : (bs ++ [b]).length = bs.length + 1 := by simp
    rw [hlen, pow_succ]
    have : bytesToNatBE bs * 256 + 256 ≤ 256 ^ bs.length * 256 := by
      have : bytesToNatBE bs + 1 ≤ 256 ^ bs.length := hv
      nlinarith
    omega

theorem take_append_length (l₁ l₂ : List Nat) : (l₁ ++ l₂).take l₁.length = l₁ := by
  induction l₁ with
  | nil => rfl
  | cons a l ih => simp [ih]

theorem drop_append_length (l₁ l₂ : List Nat) : (l₁ ++ l₂).drop l₁.length = l₂ := by
  induction l₁ with
  | nil => rfl
  | cons a l ih => simp [ih]

theorem decodeBEAux_congr (fuel : Nat) :
    ∀ fuel' w data, data.length < fuel → data.length < fuel' →
      decodeBEAux fuel w data = decodeBEAux fuel' w data := by
  induction fuel with
  | zero => intro fuel' w data h; omega
  | succ f ih =>
    intro fuel' w data hf hf'
    obtain ⟨f', rfl⟩ : ∃ g, fuel' = g + 1 := ⟨fuel' - 1, by omega⟩
    simp only [decodeBEAux]
    by_cases hc : w = 0 ∨ data.length = 0
    · rw [if_pos hc, if_pos hc]
    · rw [if_neg hc, if_neg hc]
      push_neg at hc
      rw [ih f' w (data.drop w) (by simp; omega) (by simp; omega)]

/-- The recursion `decodeBE` satisfies, fuel eliminated. -/
theorem decodeBE_eq (w : Nat) (data : List Nat) : decodeBE w data =
    if w = 0 ∨ data.length = 0 then []
    else bytesToNatBE (data.take w) :: decodeBE w (data.drop w) := by
  rw [decodeBE]
  simp only [decodeBEAux]
  by_cases hc : w = 0 ∨ data.length = 0
  · rw [if_pos hc, if_pos hc]
  · rw [if_neg hc, if_neg hc]
    push_neg at hc
    rw [decodeBE, decodeBEAux_congr data.length ((data.drop w).length + 1) w (data.drop w)
      (by simp; omega) (by omega)]

theorem decodeBE_nil (w : Nat) : decodeBE w [] = [] := by
  rw [decodeBE_eq]
  simp

theorem take_append_of_length (w : Nat) (l₁ l₂ : List Nat) (h : l₁.length = w) :
    (l₁ ++ l₂).take w = l₁ := by
  subst h
  exact take_append_length l₁ l₂

theorem drop_append_of_length (w : Nat) (l₁ l₂ : List Nat) (h : l₁.length = w) :
    (l₁ ++ l₂).drop w = l₂ := by
  subst h
  exact drop_append_length l₁ l₂

theorem natToBytesBE_bytesToNatBE_of_length (bs : List Nat) (w : Nat)
    (hl : bs.length = w) (h : ∀ b ∈ bs, b < 256) :
    natToBytesBE (bytesToNatBE bs) w = bs := by
  subst hl
  exact natToBytesBE_bytesToNatBE bs h

theorem decodeBE_encodeIntsBE (w : Nat) (hw : w ≠ 0) (xs : List Nat)
    (h : ∀ n ∈ xs, n < 256 ^ w) : decodeBE w (encodeIntsBE w xs) = xs := by
  induction xs with
  | nil => simp [encodeIntsBE, decodeBE_nil]
  | cons n rest ih =>
    have hn : n < 256 ^ w := h n (by simp)
    have hrest : ∀ x ∈ rest, x < 256 ^ w := fun x hx => h x (by simp [hx])
    have hlen : (natToBytesBE n w).length = w := length_natToBytesBE n w
    show decodeBE w (natToBytesBE n w ++ encodeIntsBE w rest) = n :: rest
    have hcond : ¬(w = 0 ∨ (natToBytesBE n w ++ encodeIntsBE w rest).length = 0) := by
      push_neg
      refine ⟨hw, ?_⟩
      simp [hlen]
      omega
    rw [decodeBE_eq, if_neg hcond]
    rw [take_append_of_length w _ _ hlen, drop_append_of_length w _ _ hlen]
    rw [bytesToNatBE_natToBytesBE w n hn, ih hrest]

theorem encodeIntsBE_decodeBE_bounded (w : Nat) (hw : w ≠ 0) :
    ∀ (fuel : Nat) (data : List Nat), data.length ≤ fuel →
      (∀ b ∈ data, b < 256) → data.length % w = 0 →
      encodeIntsBE w (decodeBE w data) = data := by
  intro fuel
  induction fuel with
  | zero =>
    intro data hfuel hbytes hlen
    have : data = [] := List.length_eq_zero.mp (by omega)
    simp [this, decodeBE_nil, encodeIntsBE]
  | succ f ih =>
    intro data hfuel hbytes hlen
    by_cases hd0 : data.length = 0
    · have : data = [] := List.length_eq_zero.mp hd0
      simp [this, decodeBE_nil, encodeIntsBE]
    · have hwle : w ≤ data.length := by
        rcases Nat.lt_or_ge data.length w with hlt | hge
        · rw [Nat.mod_eq_of_lt hlt] at hlen
          exact absurd hlen hd0
        · exact hge
      have htake : (data.take w).length = w := by
        simp [List.length_take]
        omega
      have htakebytes : ∀ b ∈ data.take w, b < 256 :=
        fun b hb => hbytes b (List.mem_of_mem_take hb)
      have hdropbytes : ∀ b ∈ data.drop w, b < 256 :=
        fun b hb => hbytes b (List.mem_of_mem_drop hb)
      have hdroplen : (data.drop w).length % w = 0 := by
        simp only [List.length_drop]
        exact Nat.mod_eq_zero_of_dvd
          (Nat.dvd_sub hwle (Nat.dvd_of_mod_eq_zero hlen) dvd_rfl)
      have hdropfuel : (data.drop w).length ≤ f := by
        simp only [List.length_drop]
        omega
      have hcond : ¬(w = 0 ∨ data.length = 0) := by
        push_neg
        exact ⟨hw, hd0⟩
      rw [decodeBE_eq, if_neg hcond]
      simp only [encodeIntsBE]
      rw [ih (data.drop w) hdropfuel hdropbytes hdroplen]
      rw [natToBytesBE_bytesToNatBE_of_length (data.take w) w htake htakebytes]
      exact List.take_append_drop w data

theorem encodeIntsBE_decodeBE (w : Nat) (hw : w ≠ 0) (data : List Nat)
    (hbytes : ∀ b ∈ data, b < 256) (hlen : data.length % w = 0) :
    encodeIntsBE w (decodeBE w data) = data :=
  encodeIntsBE_decodeBE_bounded w hw data.length data le_rfl hbytes hlen

theorem mem_decodeBE_lt_bounded (w : Nat) :
    ∀ (fuel : Nat) (data : List Nat), data.length ≤ fuel →
      (∀ b ∈ data, b < 256) → ∀ x ∈ decodeBE w data, x < 256 ^ w := by
  intro fuel
  induction fuel with
  | zero =>
    intro data hfuel hbytes x hx
    have : data = [] := List.length_eq_zero.mp (by omega)
    rw [this, decodeBE_nil] at hx
    simp at hx
  | succ f ih =>
    intro data hfuel hbytes x hx
    rw [decodeBE_eq] at hx
    by_cases hc : w = 0 ∨ data.length = 0
    · rw [if_pos hc] at hx
      simp at hx
    · rw [if_neg hc] at hx
      push_neg at hc
      rcases List.mem_cons.mp hx with hx | hx
      · subst hx
        have htb : ∀ b ∈ data.take w, b < 256 :=
          fun b hb => hbytes b (List.mem_of_mem_take hb)
        calc bytesToNatBE (data.take w) < 256 ^ (data.take w).length :=
              bytesToNatBE_lt (data.take w) htb
          _ ≤ 256 ^ w := by
              apply Nat.pow_le_pow_right (by norm_num)
              simp [List.length_take]
      · exact ih (data.drop w) (by simp; omega)
          (fun b hb => hbytes b (List.mem_of_mem_drop hb)) x hx

theorem mem_decodeBE_lt (w : Nat) (data : List Nat) (hbytes : ∀ b ∈ data, b < 256) :
    ∀ x ∈ decodeBE w data, x < 256 ^ w :=
  mem_decodeBE_lt_bounded w data.length data le_rfl hbytes

theorem intArrayGo_ok (w : Nat) (xs : List Nat) (h : ∀ n ∈ xs, n < 256 ^ w) :
    intArrayGo w xs = Except.ok (encodeIntsBE w xs) := by
  induction xs with
  | nil => rfl
  | cons n rest ih =>
    have hn : n < 256 ^ w := h n (by simp)
    have hrest : ∀ x ∈ rest, x < 256 ^ w := fun x hx => h x (by simp [hx])
    simp [intArrayGo, hn, ih hrest, encodeIntsBE]

theorem length_encodeIntsBE (w : Nat) (xs : List Nat) :
    (encodeIntsBE w xs).length = xs.length * w := by
  induction xs with
  | nil => simp [encodeIntsBE]
  | cons n rest ih =>
    simp [encodeIntsBE, length_natToBytesBE, ih]
    ring

theorem mem_encodeIntsBE_lt (w : Nat) (xs : List Nat) :
    ∀ b ∈ encodeIntsBE w xs, b < 256 := by
  induction xs with
  | nil => intro b hb; simp [encodeIntsBE] at hb
  | cons n rest ih =>
    intro b hb
    simp only [encodeIntsBE, List.mem_append] at hb
    rcases hb with hb | hb
    · exact mem_natToBytesBE_lt n w b hb
    · exact ih b hb

/-- C7: the codec round-trips exactly in both directions: decoding a byte
buffer of a multiple-of-width length and re-encoding reproduces the buffer,
and encoding any in-range integer list and decoding reproduces the list. -/
theorem codec_round_trip (w : Nat) (b xs : List Nat) (hw : 0 < w)
    (hbytes : ∀ x ∈ b, x < 256) (hlen : b.length % w = 0)
    (hxs : ∀ n ∈ xs, n < 256 ^ w) :
    (∃ ys, bytes_to_int_array b w = Except.ok ys ∧ int_array_to_bytes ys w = Except.ok b) ∧
    (∃ bs, int_array_to_bytes xs w = Except.ok bs ∧ bytes_to_int_array bs w = Except.ok xs) := by
  have hw0 : w ≠ 0 := Nat.pos_iff_ne_zero.mp hw
  constructor
  · refine ⟨decodeBE w b, ?_, ?_⟩
    · simp [bytes_to_int_array, hw0, hlen]
    · rw [int_array_to_bytes]
      simp only [hw0, if_false]
      rw [intArrayGo_ok w (decodeBE w b) (mem_decodeBE_lt w b hbytes)]
      rw [encodeIntsBE_decodeBE w hw0 b hbytes hlen]
  · refine ⟨encodeIntsBE w xs, ?_, ?_⟩
    · rw [int_array_to_bytes]
      simp only [hw0, if_false]
      exact intArrayGo_ok w xs hxs
    · rw [bytes_to_int_array]
      have hlen2 : (encodeIntsBE w xs).length % w = 0 := by
        rw [length_encodeIntsBE]
        simp [Nat.mul_mod_left]
      simp only [hw0, if_false, hlen2]
      simp only [ne_eq, not_true_eq_false, if_false]
      rw [decodeBE_encodeIntsBE w hw0 xs hxs]

-- === Transaction lemmas ===

theorem applyEffects_append (s : StoreState) (l₁ l₂ : List Effect) :
    applyEffects s (l₁ ++ l₂) = applyEffects (applyEffects s l₁) l₂ := by
  simp [applyEffects, List.foldl_append]

theorem applyEffect_markers_of_not_putMarker (s : StoreState) (e : Effect)
    (h : ∀ id t, e ≠ Effect.putMarker id t) : (applyEffect s e).markers = s.markers := by
  cases e with
  | putTask data => rfl
  | putMarker id t => exact absurd rfl (h id t)
  | createAssoc src tar => rfl
  | deleteTask id => rfl

/-- `runHandler` only buffers task and association effects, never a marker
write: committing them leaves the idempotency ledger untouched. -/
theorem runHandler_ok_markers (s : StoreState) (ci : List Nat) (sc : FailScript)
    (effs : List Effect) (sc' : FailScript)
    (h : runHandler s ci sc = Except.ok (effs, sc')) :
    ∀ s', (applyEffects s' effs).markers = s'.markers := by
  intro s'
  rw [runHandler.eq_def] at h
  repeat' split at h
  all_goals cases h
  all_goals simp [applyEffects, applyEffect]

/-- The effect list of a committed command transaction is the handler effects
followed by exactly one ProcessedCommandMarker write for this command id. -/
theorem runCommandTx_ok_shape (s : StoreState) (bd : List Nat) (id : String)
    (now : Nat) (sc : FailScript) (effs : List Effect)
    (h : runCommandTx s bd id now sc = Except.ok effs) :
    ∃ hEffs sc1 ci, bytes_to_int_array bd 8 = Except.ok ci ∧
      runHandler s ci sc = Except.ok (hEffs, sc1) ∧
      effs = hEffs ++ [Effect.putMarker id now] := by
  rw [runCommandTx.eq_def] at h
  repeat' split at h
  all_goals cases h
  rename_i x1 ci hdec x2 heffs sc1 hh hM hK hC
  exact ⟨heffs, sc1, ci, hdec, hh, rfl⟩

/-- Committing a command transaction appends exactly one marker entry for the
command id to the ledger. -/
theorem runCommandTx_ok_apply_markers (s : StoreState) (bd : List Nat) (id : String)
    (now : Nat) (sc : FailScript) (effs : List Effect)
    (h : runCommandTx s bd id now sc = Except.ok effs) :
    (applyEffects s effs).markers = s.markers ++ [(id, now)] := by
  obtain ⟨hEffs, sc1, ci, _, hh, heq⟩ := runCommandTx_ok_shape s bd id now sc effs h
  subst heq
  rw [applyEffects_append]
  have hmk := runHandler_ok_markers s ci sc hEffs sc1 hh s
  show (applyEffect (applyEffects s hEffs) (Effect.putMarker id now)).markers
      = s.markers ++ [(id, now)]
  simp [applyEffect, hmk]

theorem markerExists_append_self (s : StoreState) (id : String) (now : Nat)
    (ms : List (String × Nat)) (hms : s.markers = ms ++ [(id, now)]) :
    markerExists s id = true := by
  rw [markerExists, hms]
  simp

-- === Claim theorems: command processing (C1, C2) ===

/-- C1: command application is idempotent. For a block with a non-empty id
and no prior marker whose first delivery commits, the first delivery leaves
exactly one ProcessedCommandMarker for the id, and a second delivery of the
same block changes nothing in the store — it only re-marks the block
PROCESSED, invoking no handler (no task create/delete effect). -/
theorem processBlock_idempotent (s : StoreState) (b : Block) (now1 now2 : Nat)
    (sc1 sc2 : FailScript) (hid : b.id ≠ "")
    (hm : markerExists s b.id = false)
    (hok : exceptOk (runCommandTx s b.data b.id now1 sc1) = true) :
    (∀ s' : StoreState, markerExists s' b.id = true →
       processBlock s' b now2 sc2 = (s', { b with marker := MARKER_PROCESSED })) ∧
    markerExists (processBlock s b now1 sc1).1 b.id = true ∧
    ((processBlock s b now1 sc1).1.markers.filter (fun m => m.1 == b.id)).length = 1 ∧
    processBlock (processBlock s b now1 sc1).1 b now2 sc2
      = ((processBlock s b now1 sc1).1, { b with marker := MARKER_PROCESSED }) := by
  have hskip : ∀ s' : StoreState, markerExists s' b.id = true →
      processBlock s' b now2 sc2 = (s', { b with marker := MARKER_PROCESSED }) := by
    intro s' h'
    rw [processBlock, if_neg hid]
    simp only [h', if_true]
  rcases htx : runCommandTx s b.data b.id now1 sc1 with e | effs
  · rw [htx] at hok
    simp [exceptOk] at hok
  · have hrun : processBlock s b now1 sc1
        = (applyEffects s effs, { b with marker := MARKER_PROCESSED }) := by
      rw [processBlock, if_neg hid]
      simp only [hm, Bool.false_eq_true, if_false, htx]
    have hmarkers : (applyEffects s effs).markers = s.markers ++ [(b.id, now1)] :=
      runCommandTx_ok_apply_markers s b.data b.id now1 sc1 effs htx
    have hexists : markerExists (applyEffects s effs) b.id = true :=
      markerExists_append_self _ _ _ _ hmarkers
    have hfilter_nil : s.markers.filter (fun m => m.1 == b.id) = [] := by
      have hm' : ∀ a t, (a, t) ∈ s.markers → ¬a = b.id := by
        simpa [markerExists] using hm
      rw [List.filter_eq_nil_iff]
      rintro ⟨mid, mt⟩ hmem
      simpa using hm' mid mt hmem
    refine ⟨hskip, by rw [hrun]; exact hexists, ?_, ?_⟩
    · rw [hrun]
      simp only [hmarkers, List.filter_append, hfilter_nil]
      simp
    · rw [hrun]
      exact hskip _ hexists

/-- Witness for C1: a REPEAT block delivered twice against an empty store. -/
theorem processBlock_idempotent_witness :
    (Block.id ⟨"c1", encodeIntsBE 8 [1, 5, 2, 10, 20, 3], 0⟩ ≠ "" ∧
     markerExists ⟨[], 0, [], []⟩ "c1" = false ∧
     exceptOk (runCommandTx ⟨[], 0, [], []⟩ (encodeIntsBE 8 [1, 5, 2, 10, 20, 3]) "c1" 7 [])
       = true) ∧
    ((∀ s' : StoreState, markerExists s' "c1" = true →
        processBlock s' ⟨"c1", encodeIntsBE 8 [1, 5, 2, 10, 20, 3], 0⟩ 8 []
          = (s', { (⟨"c1", encodeIntsBE 8 [1, 5, 2, 10, 20, 3], 0⟩ : Block) with
              marker := MARKER_PROCESSED })) ∧
     markerExists (processBlock ⟨[], 0, [], []⟩
        ⟨"c1", encodeIntsBE 8 [1, 5, 2, 10, 20, 3], 0⟩ 7 []).1 "c1" = true ∧
     ((processBlock ⟨[], 0, [], []⟩
        ⟨"c1", encodeIntsBE 8 [1, 5, 2, 10, 20, 3], 0⟩ 7 []).1.markers.filter
          (fun m => m.1 == "c1")).length = 1 ∧
     processBlock (processBlock ⟨[], 0, [], []⟩
          ⟨"c1", encodeIntsBE 8 [1, 5, 2, 10, 20, 3], 0⟩ 7 []).1
        ⟨"c1", encodeIntsBE 8 [1, 5, 2, 10, 20, 3], 0⟩ 8 []
      = ((processBlock ⟨[], 0, [], []⟩
          ⟨"c1", encodeIntsBE 8 [1, 5, 2, 10, 20, 3], 0⟩ 7 []).1,
         { (⟨"c1", encodeIntsBE 8 [1, 5, 2, 10, 20, 3], 0⟩ : Block) with
             marker := MARKER_PROCESSED })) :=
  ⟨⟨by decide, by decide, by decide⟩,
    processBlock_idempotent ⟨[], 0, [], []⟩ ⟨"c1", encodeIntsBE 8 [1, 5, 2, 10, 20, 3], 0⟩
      7 8 [] [] (by decide) (by decide) (by decide)⟩

/-- C2: command application is atomic. For a block with a non-empty id and no
prior marker: if the transaction raises anywhere (payload decode, handler
execution, marker write, block marking, or commit), everything is rolled
back — the store and the block are exactly as before, so the block stays
eligible for retry; if it commits, the handler effects, the single
ProcessedCommandMarker and the PROCESSED block mark all land together. -/
theorem processBlock_atomic (s : StoreState) (b : Block) (now : Nat) (sc : FailScript)
    (hid : b.id ≠ "") (hm : markerExists s b.id = false) :
    (exceptOk (runCommandTx s b.data b.id now sc) = false →
       processBlock s b now sc = (s, b)) ∧
    (∀ effs, runCommandTx s b.data b.id now sc = Except.ok effs →
       processBlock s b now sc
           = (applyEffects s effs, { b with marker := MARKER_PROCESSED }) ∧
         (applyEffects s effs).markers = s.markers ++ [(b.id, now)]) := by
  constructor
  · intro hfail
    rcases htx : runCommandTx s b.data b.id now sc with e | effs
    · rw [processBlock, if_neg hid]
      simp only [hm, Bool.false_eq_true, if_false, htx]
    · rw [htx] at hfail
      simp [exceptOk] at hfail
  · intro effs htx
    constructor
    · rw [processBlock, if_neg hid]
      simp only [hm, Bool.false_eq_true, if_false, htx]
    · exact runCommandTx_ok_apply_markers s b.data b.id now sc effs htx

/-- Witness for C2: with a failure script making the handler store write
raise, processing a REPEAT block rolls back to exactly the initial store and
block. -/
theorem processBlock_atomic_witness :
    (Block.id ⟨"c1", encodeIntsBE 8 [1, 5, 2, 10, 20, 3], 0⟩ ≠ "" ∧
     markerExists ⟨[], 0, [], []⟩ "c1" = false ∧
     exceptOk (runCommandTx ⟨[], 0, [], []⟩ (encodeIntsBE 8 [1, 5, 2, 10, 20, 3]) "c1" 7
       [false]) = false) ∧
    processBlock ⟨[], 0, [], []⟩ ⟨"c1", encodeIntsBE 8 [1, 5, 2, 10, 20, 3], 0⟩ 7 [false]
      = (⟨[], 0, [], []⟩, ⟨"c1", encodeIntsBE 8 [1, 5, 2, 10, 20, 3], 0⟩) :=
  ⟨⟨by decide, by decide, by decide⟩,
    (processBlock_atomic ⟨[], 0, [], []⟩ ⟨"c1", encodeIntsBE 8 [1, 5, 2, 10, 20, 3], 0⟩
      7 [false] (by decide) (by decide)).1 (by decide)⟩

-- === Claim theorems: task firing (C6) and REPEAT validation (C3) ===

/-- C6: a stored task whose 40-byte payload decodes to
`(owner, channel, payload1, payload2, k)` with `k > 0`, executed at tick `t`,
pushes the message `(owner, channel, encoding of [payload1, payload2])` iff
`t mod k = 0`, and pushes nothing otherwise. -/
theorem task_fires_iff (data : List Nat) (o c p1 p2 k t : Nat)
    (hbytes : ∀ x ∈ data, x < 256)
    (hdec : bytes_to_int_array data 8 = Except.ok [o, c, p1, p2, k]) (hk : 0 < k) :
    processScheduledTask data t
      = if t % k = 0 then some (o, c, encodeIntsBE 8 [p1, p2]) else none := by
  have hlist : decodeBE 8 data = [o, c, p1, p2, k] := by
    have hdec' := hdec
    rw [bytes_to_int_array] at hdec'
    split at hdec'
    · exact absurd hdec' (by simp)
    · split at hdec'
      · exact absurd hdec' (by simp)
      · exact Except.ok.inj hdec'
  have hmem : ∀ x ∈ decodeBE 8 data, x < 256 ^ 8 := mem_decodeBE_lt 8 data hbytes
  rw [hlist] at hmem
  have hp1 : p1 < 256 ^ 8 := hmem p1 (by simp)
  have hp2 : p2 < 256 ^ 8 := hmem p2 (by simp)
  have hpayload : int_array_to_bytes [p1, p2] 8 = Except.ok (encodeIntsBE 8 [p1, p2]) := by
    rw [int_array_to_bytes]
    simp only [OfNat.ofNat_ne_zero, if_false]
    apply intArrayGo_ok
    intro n hn
    rcases List.mem_cons.mp hn with hn | hn
    · exact hn ▸ hp1
    · simp at hn
      exact hn ▸ hp2
  rw [processScheduledTask, hdec]
  have hk0 : ¬(k = 0) := by omega
  simp only [hk0, if_false]
  by_cases ht : t % k = 0
  · rw [if_pos ht, if_pos ht, hpayload]
  · rw [if_neg ht, if_neg ht]

/-- Witness for C6 at task `(5, 2, 10, 20, 3)` and tick 6. -/
theorem task_fires_iff_witness :
    ((∀ x ∈ encodeIntsBE 8 [5, 2, 10, 20, 3], x < 256) ∧
     bytes_to_int_array (encodeIntsBE 8 [5, 2, 10, 20, 3]) 8
       = Except.ok [5, 2, 10, 20, 3] ∧ 0 < 3) ∧
    processScheduledTask (encodeIntsBE 8 [5, 2, 10, 20, 3]) 6
      = if 6 % 3 = 0 then some (5, 2, encodeIntsBE 8 [10, 20]) else none :=
  ⟨⟨by decide, by rfl, by decide⟩,
    task_fires_iff (encodeIntsBE 8 [5, 2, 10, 20, 3]) 5 2 10 20 3 6
      (by decide) (by rfl) (by decide)⟩

/-- C3 as stated is false: the REPEAT handler performs no validation.
A 48-byte REPEAT command with `interval_ticks = 0` is not rejected: it
commits and stores a TaskDefinition whose interval field is 0 (and marks the
block PROCESSED). -/
theorem repeat_no_validation_counterexample :
    (processBlock ⟨[], 0, [], []⟩
        ⟨"c1", encodeIntsBE 8 [1, 5, 2, 10, 20, 0], MARKER_UNPROCESSED⟩ 0 []).1.tasks
      = [(0, encodeIntsBE 8 [5, 2, 10, 20, 0])] ∧
    (processBlock ⟨[], 0, [], []⟩
        ⟨"c1", encodeIntsBE 8 [1, 5, 2, 10, 20, 0], MARKER_UNPROCESSED⟩ 0 []).2.marker
      = MARKER_PROCESSED ∧
    bytes_to_int_array (encodeIntsBE 8 [5, 2, 10, 20, 0]) 8
      = Except.ok [5, 2, 10, 20, 0] := by
  refine ⟨by decide, by decide, by rfl⟩

/-- C3 amended: the REPEAT handler does not validate its parameters; a REPEAT
command with `interval_ticks = 0` is applied and commits, storing a
TaskDefinition with a zero interval. The zero interval does reach the
execution-time tick-mod step, where the raised division error is caught by
the per-task worker, so such a task never pushes a message. -/
theorem repeat_zero_interval_stored_never_fires (o c p1 p2 : Nat) (s : StoreState)
    (b : Block) (now t : Nat)
    (ho : o < 256 ^ 8) (hc : c < 256 ^ 8) (hp1 : p1 < 256 ^ 8) (hp2 : p2 < 256 ^ 8)
    (hid : b.id ≠ "") (hdata : b.data = encodeIntsBE 8 [CMD_REPEAT, o, c, p1, p2, 0])
    (hm : markerExists s b.id = false) :
    (processBlock s b now []).1.tasks
        = s.tasks ++ [(s.nextTaskId, encodeIntsBE 8 [o, c, p1, p2, 0])] ∧
    (processBlock s b now []).2.marker = MARKER_PROCESSED ∧
    processScheduledTask (encodeIntsBE 8 [o, c, p1, p2, 0]) t = none := by
  have hin : ∀ x ∈ [CMD_REPEAT, o, c, p1, p2, 0], x < 256 ^ 8 := by
    intro x hx
    rcases List.mem_cons.mp hx with hx | hx
    · rw [hx, CMD_REPEAT]
      norm_num
    · rcases List.mem_cons.mp hx with hx | hx
      · exact hx ▸ ho
      · rcases List.mem_cons.mp hx with hx | hx
        · exact hx ▸ hc
        · rcases List.mem_cons.mp hx with hx | hx
          · exact hx ▸ hp1
          · rcases List.mem_cons.mp hx with hx | hx
            · exact hx ▸ hp2
            · simp at hx
              rw [hx]
              norm_num
  have hin5 : ∀ x ∈ [o, c, p1, p2, 0], x < 256 ^ 8 := by
    intro x hx
    exact hin x (by simp at hx ⊢; tauto)
  have hdec : bytes_to_int_array (encodeIntsBE 8 [CMD_REPEAT, o, c, p1, p2, 0]) 8
      = Except.ok [CMD_REPEAT, o, c, p1, p2, 0] := by
    rw [bytes_to_int_array]
    simp only [OfNat.ofNat_ne_zero, if_false]
    have hlen : (encodeIntsBE 8 [CMD_REPEAT, o, c, p1, p2, 0]).length % 8 = 0 := by
      rw [length_encodeIntsBE]
      simp [Nat.mul_mod_left]
    simp only [hlen, ne_eq, not_true_eq_false, if_false]
    rw [decodeBE_encodeIntsBE 8 (by norm_num) _ hin]
  have hdec5 : bytes_to_int_array (encodeIntsBE 8 [o, c, p1, p2, 0]) 8
      = Except.ok [o, c, p1, p2, 0] := by
    rw [bytes_to_int_array]
    simp only [OfNat.ofNat_ne_zero, if_false]
    have hlen : (encodeIntsBE 8 [o, c, p1, p2, 0]).length % 8 = 0 := by
      rw [length_encodeIntsBE]
      simp [Nat.mul_mod_left]
    simp only [hlen, ne_eq, not_true_eq_false, if_false]
    rw [decodeBE_encodeIntsBE 8 (by norm_num) _ hin5]
  have htaskbytes : int_array_to_bytes [o, c, p1, p2, 0] 8
      = Except.ok (encodeIntsBE 8 [o, c, p1, p2, 0]) := by
    rw [int_array_to_bytes]
    simp only [OfNat.ofNat_ne_zero, if_false]
    exact intArrayGo_ok 8 _ hin5
  have hhandler : runHandler s [CMD_REPEAT, o, c, p1, p2, 0] []
      = Except.ok ([Effect.putTask (encodeIntsBE 8 [o, c, p1, p2, 0]),
          Effect.createAssoc ID_TASK_ROOT s.nextTaskId], []) := by
    rw [runHandler]
    simp only [if_pos rfl, htaskbytes]
    simp [scriptNext]
  have htx : runCommandTx s b.data b.id now []
      = Except.ok [Effect.putTask (encodeIntsBE 8 [o, c, p1, p2, 0]),
          Effect.createAssoc ID_TASK_ROOT s.nextTaskId, Effect.putMarker b.id now] := by
    rw [runCommandTx, hdata, hdec]
    simp only [hhandler]
    simp [scriptNext]
  have hrun : processBlock s b now []
      = (applyEffects s [Effect.putTask (encodeIntsBE 8 [o, c, p1, p2, 0]),
          Effect.createAssoc ID_TASK_ROOT s.nextTaskId, Effect.putMarker b.id now],
         { b with marker := MARKER_PROCESSED }) := by
    rw [processBlock, if_neg hid]
    simp only [hm, Bool.false_eq_true, if_false, htx]
  refine ⟨?_, by rw [hrun], ?_⟩
  · rw [hrun]
    simp [applyEffects, applyEffect]
  · rw [processScheduledTask, hdec5]
    simp

/-- Witness for the amended C3 at `(owner, channel, payloads) = (5, 2, 10, 20)`. -/
theorem repeat_zero_interval_stored_never_fires_witness :
    ((5 : Nat) < 256 ^ 8 ∧ (2 : Nat) < 256 ^ 8 ∧ (10 : Nat) < 256 ^ 8 ∧
     (20 : Nat) < 256 ^ 8 ∧
     Block.id ⟨"c9", encodeIntsBE 8 [CMD_REPEAT, 5, 2, 10, 20, 0], 0⟩ ≠ "" ∧
     Block.data ⟨"c9", encodeIntsBE 8 [CMD_REPEAT, 5, 2, 10, 20, 0], 0⟩
       = encodeIntsBE 8 [CMD_REPEAT, 5, 2, 10, 20, 0] ∧
     markerExists ⟨[], 0, [], []⟩ "c9" = false) ∧
    ((processBlock ⟨[], 0, [], []⟩
        ⟨"c9", encodeIntsBE 8 [CMD_REPEAT, 5, 2, 10, 20, 0], 0⟩ 3 []).1.tasks
      = [] ++ [(0, encodeIntsBE 8 [5, 2, 10, 20, 0])] ∧
     (processBlock ⟨[], 0, [], []⟩
        ⟨"c9", encodeIntsBE 8 [CMD_REPEAT, 5, 2, 10, 20, 0], 0⟩ 3 []).2.marker
      = MARKER_PROCESSED ∧
     processScheduledTask (encodeIntsBE 8 [5, 2, 10, 20, 0]) 12 = none) :=
  ⟨⟨by decide, by decide, by decide, by decide, by decide, by decide, by decide⟩,
    repeat_zero_interval_stored_never_fires 5 2 10 20 ⟨[], 0, [], []⟩
      ⟨"c9", encodeIntsBE 8 [CMD_REPEAT, 5, 2, 10, 20, 0], 0⟩ 3 12
      (by decide) (by decide) (by decide) (by decide) (by decide) (by decide) (by decide)⟩

-- === Claim theorems: block state transitions (C8) ===

/-- C8 as stated is false: processing does move a block into the ERROR state.
A dispatched block with no id, starting UNPROCESSED, is marked ERROR. -/
theorem block_error_transition_counterexample :
    (processBlock ⟨[], 0, [], []⟩ ⟨"", [], MARKER_UNPROCESSED⟩ 0 []).2.marker
      = MARKER_ERROR := by
  decide

/-- C8 amended: a block handled by the processor starts in UNPROCESSED or
ERROR (the stream filter excludes PROCESSED blocks, so a PROCESSED block is
never handled or reverted), and processing either marks it PROCESSED (on
success or idempotent skip), marks it ERROR when it has no id, or leaves it
unchanged on a rolled-back failure. -/
theorem block_state_transitions (s : StoreState) (blocks : List Block) (b : Block)
    (now : Nat) (sc : FailScript) (hmem : b ∈ dispatchCommandBlocks blocks) :
    (b.marker = MARKER_UNPROCESSED ∨ b.marker = MARKER_ERROR) ∧
    ((processBlock s b now sc).2.marker = MARKER_PROCESSED ∨
     (b.id = "" ∧ (processBlock s b now sc).2.marker = MARKER_ERROR) ∨
     (processBlock s b now sc).2 = b) := by
  constructor
  · have hmem' : b ∈ blocks ∧ (b.marker = MARKER_UNPROCESSED ∨ b.marker = MARKER_ERROR) := by
      simpa [dispatchCommandBlocks, List.mem_filter] using hmem
    exact hmem'.2
  · rw [processBlock]
    by_cases hid : b.id = ""
    · rw [if_pos hid]
      exact Or.inr (Or.inl ⟨hid, rfl⟩)
    · rw [if_neg hid]
      by_cases hex : markerExists s b.id
      · simp only [hex, if_true]
        exact Or.inl (by simp)
      · simp only [Bool.not_eq_true] at hex
        simp only [hex, Bool.false_eq_true, if_false]
        rcases htx : runCommandTx s b.data b.id now sc with e | effs
        · simp only [htx]
          exact Or.inr (Or.inr (by simp))
        · simp only [htx]
          exact Or.inl (by simp)

/-- Witness for the amended C8: an ERROR-state block re-dispatched from the
stream, processed against an empty store with an already-present marker. -/
theorem block_state_transitions_witness :
    (⟨"c2", [], MARKER_ERROR⟩ : Block) ∈
      dispatchCommandBlocks [⟨"done", [], MARKER_PROCESSED⟩, ⟨"c2", [], MARKER_ERROR⟩] ∧
    ((Block.marker ⟨"c2", [], MARKER_ERROR⟩ = MARKER_UNPROCESSED ∨
      Block.marker ⟨"c2", [], MARKER_ERROR⟩ = MARKER_ERROR) ∧
     ((processBlock ⟨[], 0, [], [("c2", 4)]⟩ ⟨"c2", [], MARKER_ERROR⟩ 9 []).2.marker
         = MARKER_PROCESSED ∨
      (Block.id ⟨"c2", [], MARKER_ERROR⟩ = "" ∧
       (processBlock ⟨[], 0, [], [("c2", 4)]⟩ ⟨"c2", [], MARKER_ERROR⟩ 9 []).2.marker
         = MARKER_ERROR) ∨
      (processBlock ⟨[], 0, [], [("c2", 4)]⟩ ⟨"c2", [], MARKER_ERROR⟩ 9 []).2
        = ⟨"c2", [], MARKER_ERROR⟩)) :=
  ⟨by decide,
    block_state_transitions ⟨[], 0, [], [("c2", 4)]⟩
      [⟨"done", [], MARKER_PROCESSED⟩, ⟨"c2", [], MARKER_ERROR⟩]
      ⟨"c2", [], MARKER_ERROR⟩ 9 [] (by decide)⟩

-- === Clock serialization lemmas ===

theorem natDigitsBEAux_congr (fuel : Nat) :
    ∀ fuel' n, n < fuel → n < fuel' → natDigitsBEAux fuel n = natDigitsBEAux fuel' n := by
  induction fuel with
  | zero => intro fuel' n h; omega
  | succ f ih =>
    intro fuel' n hf hf'
    obtain ⟨f', rfl⟩ : ∃ g, fuel' = g + 1 := ⟨fuel' - 1, by omega⟩
    simp only [natDigitsBEAux]
    by_cases h10 : n < 10
    · simp [h10]
    · simp only [h10, if_false]
      rw [ih f' (n / 10) (by omega) (by omega)]

/-- The recursion `natDigitsBE` satisfies, fuel eliminated. -/
theorem natDigitsBE_eq (n : Nat) : natDigitsBE n =
    if n < 10 then [48 + n] else natDigitsBE (n / 10) ++ [48 + n % 10] := by
  rw [natDigitsBE]
  by_cases h10 : n < 10
  · simp [natDigitsBEAux, h10]
  · simp only [natDigitsBEAux, h10, if_false]
    rw [natDigitsBE, natDigitsBEAux_congr n (n / 10 + 1) (n / 10) (by omega) (by omega)]

theorem natDigitsBE_ne_nil (n : Nat) : natDigitsBE n ≠ [] := by
  rw [natDigitsBE_eq]
  split
  · simp
  · simp

theorem natDigitsBE_all_digits (n : Nat) : ∀ d ∈ natDigitsBE n, isDigitByte d = true := by
  induction n using Nat.strong_induction_on with
  | _ n ih =>
    intro d hd
    rw [natDigitsBE_eq] at hd
    by_cases h10 : n < 10
    · rw [if_pos h10] at hd
      simp at hd
      simp [hd, isDigitByte]
      omega
    · rw [if_neg h10] at hd
      rcases List.mem_append.mp hd with hd | hd
      · exact ih (n / 10) (by omega) d hd
      · simp at hd
        simp [hd, isDigitByte]
        omega

theorem digitsVal_concat (ds : List Nat) (d : Nat) :
    digitsVal (ds ++ [d]) = digitsVal ds * 10 + (d - 48) := by
  simp [digitsVal, List.foldl_append]

theorem digitsVal_natDigitsBE (n : Nat) : digitsVal (natDigitsBE n) = n := by
  induction n using Nat.strong_induction_on with
  | _ n ih =>
    rw [natDigitsBE_eq]
    by_cases h10 : n < 10
    · rw [if_pos h10]
      simp [digitsVal]
    · rw [if_neg h10, digitsVal_concat, ih (n / 10) (by omega)]
      omega

theorem parseClockTime_serializeClock (n : Nat) :
    parseClockTime (serializeClock n) = some n := by
  have hassoc : serializeClock n = clockHeader ++ (natDigitsBE n ++ [125]) := by
    simp [serializeClock]
  have hhead : clockHeader.length = 8 := rfl
  have htake : (serializeClock n).take 8 = clockHeader := by
    rw [hassoc]
    exact take_append_of_length 8 clockHeader _ hhead
  have hdrop : (serializeClock n).drop 8 = natDigitsBE n ++ [125] := by
    rw [hassoc]
    exact drop_append_of_length 8 clockHeader _ hhead
  have hlast : ((serializeClock n).drop 8).getLast? = some 125 := by
    rw [hdrop]
    exact List.getLast?_concat _
  have hbody : ((serializeClock n).drop 8).dropLast = natDigitsBE n := by
    rw [hdrop]
    exact List.dropLast_concat
  rw [parseClockTime]
  simp only [hbody, htake, hlast]
  rw [if_pos]
  · rw [digitsVal_natDigitsBE]
  · refine ⟨by simp, by simp, natDigitsBE_ne_nil n, ?_⟩
    rw [List.all_eq_true]
    exact natDigitsBE_all_digits n

-- === Claim theorems: clock (C4, C5, C10) ===

/-- C5: `advanceClock` on an absent clock record returns 1 and persists a
clock with time 1; on a record holding time `v` it returns `v + 1` and
persists time `v + 1` (and the persisted record indeed reads back as
`v + 1`). -/
theorem advanceClock_spec (h h' : ClockHost) (d : List Nat) (v : Nat)
    (hg : h.getFails = false) (hp : h.putFails = false) (hnone : h.clock = none)
    (hg' : h'.getFails = false) (hp' : h'.putFails = false) (hsome : h'.clock = some d)
    (hparse : parseClockTime d = some v) :
    advanceClock h = (some 1, { h with clock := some (serializeClock 1) }) ∧
    advanceClock h' = (some (v + 1), { h' with clock := some (serializeClock (v + 1)) }) ∧
    parseClockTime (serializeClock (v + 1)) = some (v + 1) := by
  refine ⟨?_, ?_, parseClockTime_serializeClock (v + 1)⟩
  · rw [advanceClock]
    simp [hg, hp, hnone]
  · rw [advanceClock]
    simp [hg', hp', hsome, hparse]

/-- Witness for C5: an absent clock advances to 1, a clock at 41 advances
to 42. -/
theorem advanceClock_spec_witness :
    (ClockHost.getFails ⟨none, false, false⟩ = false ∧
     ClockHost.putFails ⟨none, false, false⟩ = false ∧
     ClockHost.clock ⟨none, false, false⟩ = none ∧
     ClockHost.getFails ⟨some (serializeClock 41), false, false⟩ = false ∧
     ClockHost.putFails ⟨some (serializeClock 41), false, false⟩ = false ∧
     ClockHost.clock ⟨some (serializeClock 41), false, false⟩ = some (serializeClock 41) ∧
     parseClockTime (serializeClock 41) = some 41) ∧
    (advanceClock ⟨none, false, false⟩
        = (some 1, { (⟨none, false, false⟩ : ClockHost) with clock := some (serializeClock 1) }) ∧
     advanceClock ⟨some (serializeClock 41), false, false⟩
        = (some 42, { (⟨some (serializeClock 41), false, false⟩ : ClockHost) with
            clock := some (serializeClock 42) }) ∧
     parseClockTime (serializeClock 42) = some 42) :=
  ⟨⟨rfl, rfl, rfl, rfl, rfl, rfl, by decide⟩,
    advanceClock_spec ⟨none, false, false⟩ ⟨some (serializeClock 41), false, false⟩
      (serializeClock 41) 41 rfl rfl rfl rfl rfl rfl (by decide)⟩

/-- C10: when the stored clock data does not parse as a JSON object with a
`time` field, `advanceClock` silently re-initializes: it overwrites the
record with time 1 and returns 1 (and the overwritten record reads back as
1, so a later cycle resumes from 1 — the observed tick is not monotonic
under clock-data corruption). -/
theorem advanceClock_corrupt_reinitializes (h : ClockHost) (d : List Nat)
    (hg : h.getFails = false) (hp : h.putFails = false)
    (hclock : h.clock = some d) (hparse : parseClockTime d = none) :
    advanceClock h = (some 1, { h with clock := some (serializeClock 1) }) ∧
    parseClockTime (serializeClock 1) = some 1 := by
  refine ⟨?_, parseClockTime_serializeClock 1⟩
  rw [advanceClock]
  simp [hg, hp, hclock, hparse]

/-- Witness for C10 on the corrupt record `"xx"` (bytes 120, 120). -/
theorem advanceClock_corrupt_reinitializes_witness :
    (ClockHost.getFails ⟨some [120, 120], false, false⟩ = false ∧
     ClockHost.putFails ⟨some [120, 120], false, false⟩ = false ∧
     ClockHost.clock ⟨some [120, 120], false, false⟩ = some [120, 120] ∧
     parseClockTime [120, 120] = none) ∧
    (advanceClock ⟨some [120, 120], false, false⟩
        = (some 1, { (⟨some [120, 120], false, false⟩ : ClockHost) with
            clock := some (serializeClock 1) }) ∧
     parseClockTime (serializeClock 1) = some 1) :=
  ⟨⟨rfl, rfl, rfl, by decide⟩,
    advanceClock_corrupt_reinitializes ⟨some [120, 120], false, false⟩ [120, 120]
      rfl rfl rfl (by decide)⟩

/-- C4 as stated is false: a fetch failure does yield a tick value. With the
clock stored at 5 but the fetch raising, `_advance_clock` lands in the
re-initialization branch and returns tick 1 — not a failure signal — and the
cycle then dispatches task work at that tick. -/
theorem advanceClock_fetch_failure_counterexample :
    (advanceClock ⟨some (serializeClock 5), true, false⟩).1 = some 1 ∧
    tailJobs ⟨some (serializeClock 5), true, false⟩ [7] [] = [Job.task 7 1] := by
  constructor
  · decide
  · decide

/-- C4 amended: a persist failure is reported as a failure signal (`None`,
not a tick value) and the cycle then dispatches no task and no command work;
but a fetch failure is treated as a first run and yields the tick value 1. -/
theorem advanceClock_failure_modes (h h' : ClockHost) (taskIds : List Nat)
    (blocks : List Block) (hput : h.putFails = true)
    (hget' : h'.getFails = true) (hput' : h'.putFails = false) :
    advanceClock h = (none, h) ∧ tailJobs h taskIds blocks = [] ∧
    (advanceClock h').1 = some 1 := by
  have hadv : advanceClock h = (none, h) := by
    rw [advanceClock]
    simp [hput]
  refine ⟨hadv, ?_, ?_⟩
  · rw [tailJobs, hadv]
  · rw [advanceClock]
    simp [hget', hput']

/-- Witness for the amended C4: a persist-failing host halts the cycle with
no jobs; a fetch-failing host yields tick 1. -/
theorem advanceClock_failure_modes_witness :
    (ClockHost.putFails ⟨some (serializeClock 9), false, true⟩ = true ∧
     ClockHost.getFails ⟨some (serializeClock 9), true, false⟩ = true ∧
     ClockHost.putFails ⟨some (serializeClock 9), true, false⟩ = false) ∧
    (advanceClock ⟨some (serializeClock 9), false, true⟩
        = (none, ⟨some (serializeClock 9), false, true⟩) ∧
     tailJobs ⟨some (serializeClock 9), false, true⟩ [3] [] = [] ∧
     (advanceClock ⟨some (serializeClock 9), true, false⟩).1 = some 1) :=
  ⟨⟨rfl, rfl, rfl⟩,
    advanceClock_failure_modes ⟨some (serializeClock 9), false, true⟩
      ⟨some (serializeClock 9), true, false⟩ [3] [] rfl rfl rfl⟩

/-- Witness for C7 at width 2 with buffer `[1, 2]` and integer list `[300, 0]`. -/
theorem codec_round_trip_witness :
    (0 < 2 ∧ (∀ x ∈ [1, 2], x < 256) ∧ [1, 2].length % 2 = 0 ∧
      (∀ n ∈ [300, 0], n < 256 ^ 2)) ∧
    ((∃ ys, bytes_to_int_array [1, 2] 2 = Except.ok ys ∧
        int_array_to_bytes ys 2 = Except.ok [1, 2]) ∧
     (∃ bs, int_array_to_bytes [300, 0] 2 = Except.ok bs ∧
        bytes_to_int_array bs 2 = Except.ok [300, 0])) :=
  ⟨⟨by decide, by decide, by decide, by decide⟩,
    codec_round_trip 2 [1, 2] [300, 0] (by decide) (by decide) (by decide) (by decide)⟩

end Repeater
